import Mathlib

/-!
Verification of the AlgoForge market-data pipeline (`src/data_pipeline`).

The Python sources are shallowly embedded: timestamps become a record of
calendar/clock fields, Python floats in bar dictionaries become exact
rationals, Python `int(...)` truncation becomes an explicit truncation on
`ℚ`, Python dictionaries with possibly-missing keys become records of
`Option`-typed fields, filesystem state becomes an association list from
paths to file contents, and network/provider effects are parametrised by
explicit response values or per-symbol result functions.
-/

namespace AlgoForge

/-- A `datetime` value at second precision, as produced by
`datetime.strptime(ts, "%Y-%m-%d %H:%M:%S")` in `nq_downloader.py`
(microseconds are always zero there, so they are not modelled). -/
structure DateTime where
  year : ℕ
  month : ℕ
  day : ℕ
  hour : ℕ
  minute : ℕ
  second : ℕ
deriving DecidableEq, Repr

/-- Total order key for sorting bars by timestamp
(`bars.sort(key=lambda x: x['timestamp'])`). -/
def DateTime.key (t : DateTime) : ℕ :=
  ((((t.year * 13 + t.month) * 32 + t.day) * 24 + t.hour) * 60 + t.minute) * 60 + t.second

/-- Python `int(x)` on a real value: truncation toward zero. -/
def pyInt (x : ℚ) : ℤ :=
  if 0 ≤ x then ⌊x⌋ else ⌈x⌉

/-- A bar dictionary as passed around `nq_downloader.py`: each of the six
keys may be absent (`Option.none` models a missing dictionary key).
Prices are exact rationals, volume an integer. -/
structure BarDict where
  timestamp : Option DateTime
  «open» : Option ℚ
  high : Option ℚ
  low : Option ℚ
  close : Option ℚ
  volume : Option ℤ
deriving DecidableEq, Repr

/-- `NQDataDownloader.validate_ohlcv_data_simple` (nq_downloader.py:218-235):
checks the six required fields are present, then
`low <= open <= high and low <= close <= high`, then `volume >= 0`. -/
def validate_ohlcv_data_simple (data : BarDict) : Bool :=
  match data.timestamp, data.«open», data.high, data.low, data.close, data.volume with
  | some _, some o, some h, some l, some c, some v =>
      if ¬ (l ≤ o ∧ o ≤ h ∧ l ≤ c ∧ c ≤ h) then false
      else if v < 0 then false
      else true
  | _, _, _, _, _, _ => false

/-- `NQDataDownloader.clean_ohlcv_data_simple` (nq_downloader.py:237-245):
starts from an empty accumulator and appends each bar that validates. -/
def clean_ohlcv_data_simple (data : List BarDict) : List BarDict :=
  data.foldl (fun cleaned bar =>
    if validate_ohlcv_data_simple bar then cleaned ++ [bar] else cleaned) []

/-- The price scaling applied to each of the four price fields in
`create_lean_csv_simple` (nq_downloader.py:262): `int(price * 10000)`,
with `LEAN_PRICE_MULTIPLIER = 10000` from config.py. -/
def scaledPrice (p : ℚ) : ℤ :=
  pyInt (p * 10000)

/-- Milliseconds since local midnight of the bar's calendar date
(nq_downloader.py:256-259): `int((ts - midnight).total_seconds() * 1000)`. -/
def msOfDay (t : DateTime) : ℕ :=
  (t.hour * 3600 + t.minute * 60 + t.second) * 1000

/-- Zero-padded two-digit rendering used by `strftime` field specifiers. -/
def pad2 (n : ℕ) : String :=
  if n < 10 then "0" ++ toString n else toString n

/-- Zero-padded four-digit rendering used by `strftime("%Y")`. -/
def pad4 (n : ℕ) : String :=
  if n < 10 then "000" ++ toString n
  else if n < 100 then "00" ++ toString n
  else if n < 1000 then "0" ++ toString n
  else toString n

/-- `timestamp.strftime("%Y%m%d %H:%M")`, the daily-resolution time field
(nq_downloader.py:254). -/
def fmtDaily (t : DateTime) : String :=
  pad4 t.year ++ pad2 t.month ++ pad2 t.day ++ " " ++ pad2 t.hour ++ ":" ++ pad2 t.minute

/-- One CSV line of `create_lean_csv_simple` (nq_downloader.py:252-263):
the time field (daily date string, otherwise milliseconds since midnight)
followed by the four `int(price * 10000)` scaled prices and the volume. -/
def lineOfBar (resolution : String) (t : DateTime) (o h l c : ℚ) (v : ℤ) : String :=
  (if resolution = "daily" then fmtDaily t else toString (msOfDay t)) ++ "," ++
    toString (scaledPrice o) ++ "," ++ toString (scaledPrice h) ++ "," ++
    toString (scaledPrice l) ++ "," ++ toString (scaledPrice c) ++ "," ++ toString v

/-- `NQDataDownloader.create_lean_csv_simple` (nq_downloader.py:247-265):
builds one CSV line per bar, in input order.  Accessing a missing
dictionary key raises `KeyError` in Python, modelled as `Except.error`. -/
def create_lean_csv_simple : List BarDict → String → String → Except String (List String)
  | [], _, _ => .ok []
  | bar :: rest, symbol, resolution =>
      match bar.timestamp, bar.«open», bar.high, bar.low, bar.close, bar.volume with
      | some t, some o, some h, some l, some c, some v =>
          (create_lean_csv_simple rest symbol resolution).map
            (fun lines => lineOfBar resolution t o h l c v :: lines)
      | _, _, _, _, _, _ => .error "KeyError"

/-- The per-bar line when all six fields are present, `none` otherwise. -/
def lineOfDict (resolution : String) (bar : BarDict) : Option String :=
  match bar.timestamp, bar.«open», bar.high, bar.low, bar.close, bar.volume with
  | some t, some o, some h, some l, some c, some v =>
      some (lineOfBar resolution t o h l c v)
  | _, _, _, _, _, _ => none

/-- All six required dictionary keys are present. -/
def hasAllFields (bar : BarDict) : Bool :=
  bar.timestamp.isSome && bar.«open».isSome && bar.high.isSome &&
    bar.low.isSome && bar.close.isSome && bar.volume.isSome

/-- The minute-resolution chunk loop of `NQDataDownloader.download_symbol_data`
(nq_downloader.py:280-311), with instants measured in minutes, so
`timedelta(days=7) = 10080` and `timedelta(days=1) = 1440`:
`while current_start <= end_date:` emit
`(current_start, chunk_end)` with `chunk_end = min(current_start + 7 days,
end_date)`, then `current_start = chunk_end + 1 day`. -/
def chunkWindows (start endT : ℕ) : List (ℕ × ℕ) :=
  if start ≤ endT then
    (start, min (start + 10080) endT) :: chunkWindows (min (start + 10080) endT + 1440) endT
  else []
termination_by endT + 1 - start
decreasing_by omega

/-- The parsed values of one Alpha Vantage time-series record
(nq_downloader.py:94-101). -/
structure AVBarValues where
  «open» : ℚ
  high : ℚ
  low : ℚ
  close : ℚ
  volume : ℤ
deriving DecidableEq, Repr

/-- The decoded JSON body of an Alpha Vantage response as inspected by
`get_alpha_vantage_data`: the optional `'Error Message'` and `'Note'` keys
and the optional time-series object.  A `none` entry value models a record
whose fields fail to parse (skipped with `continue`). -/
structure AVResponse where
  errorMessage : Option String
  note : Option String
  timeSeries : Option (List (DateTime × Option AVBarValues))
deriving DecidableEq, Repr

/-- The bar dictionary built from one time-series record
(nq_downloader.py:94-101): all six keys present. -/
def mkAVBar (t : DateTime) (v : AVBarValues) : BarDict :=
  ⟨some t, some v.«open», some v.high, some v.low, some v.close, some v.volume⟩

/-- Sort key used by `bars.sort(key=lambda x: x['timestamp'])`; Alpha
Vantage bars always carry a timestamp. -/
def tsKey (b : BarDict) : ℕ :=
  match b.timestamp with
  | some t => t.key
  | none => 0

/-- Insertion into a list sorted ascending by timestamp. -/
def insertByTs (b : BarDict) : List BarDict → List BarDict
  | [] => [b]
  | c :: rest => if tsKey b ≤ tsKey c then b :: c :: rest else c :: insertByTs b rest

/-- `bars.sort(key=lambda x: x['timestamp'])` (nq_downloader.py:108). -/
def sortByTs (l : List BarDict) : List BarDict :=
  l.foldr insertByTs []

/-- `NQDataDownloader.get_alpha_vantage_data` (nq_downloader.py:52-118)
from the decoded JSON onwards.  Output: the returned bar list paired with
the number of seconds slept inside the call (`time.sleep(60)` on a rate
limit).  Branch order follows the source: `'Error Message'` is tested
before `'Note'`, which is tested before the time-series key. -/
def get_alpha_vantage_data (resp : AVResponse) : List BarDict × ℕ :=
  match resp.errorMessage with
  | some _ => ([], 0)
  | none =>
      match resp.note with
      | some _ => ([], 60)
      | none =>
          match resp.timeSeries with
          | none => ([], 0)
          | some entries =>
              (sortByTs (entries.filterMap (fun p => p.2.map (mkAVBar p.1))), 0)

/-- The per-run report the spec's orchestrator contract describes:
succeeded symbols plus failed symbols with reasons.  The Python
orchestrator never constructs such a value. -/
structure RunReport where
  succeeded : List String
  failed : List (String × String)
deriving DecidableEq, Repr

/-- Observable outcome of one orchestrator run: the Python return value
(`None`, since `download_multiple_symbols` has no `return` statement),
the symbols for which `download_symbol_data` was invoked, and the
per-symbol errors logged by the `except` clause. -/
structure RunTrace where
  retVal : Option RunReport
  attempted : List String
  errors : List (String × String)
deriving DecidableEq, Repr

/-- The symbol loop of `download_multiple_symbols` (nq_downloader.py:334-340),
parametrised by the per-symbol behaviour `f` of `download_symbol_data`:
`try` the symbol; on any exception log the error and `continue`. -/
def runSymbols (f : String → Except String Unit) : List String → List String × List (String × String)
  | [] => ([], [])
  | s :: rest =>
      let tail := runSymbols f rest
      match f s with
      | .ok _ => (s :: tail.1, tail.2)
      | .error e => (s :: tail.1, (s, e) :: tail.2)

/-- `NQDataDownloader.download_multiple_symbols` (nq_downloader.py:330-342):
runs the symbol loop and falls off the end of the function body, so the
Python return value is `None`. -/
def download_multiple_symbols (f : String → Except String Unit) (symbols : List String) : RunTrace :=
  ⟨none, (runSymbols f symbols).1, (runSymbols f symbols).2⟩

/-- Filesystem state: file contents keyed by path, plus the set of
existing directories. -/
structure FileSystem where
  files : List (String × String)
  dirs : List String
deriving DecidableEq, Repr

/-- Association-list lookup (reading a file's bytes). -/
def fsGet : List (String × String) → String → Option String
  | [], _ => none
  | (q, w) :: rest, p => if q = p then some w else fsGet rest p

/-- `open(path, 'w')` followed by writing: truncate-and-replace the
contents at `path`, creating the file if absent. -/
def fsSet : List (String × String) → String → String → List (String × String)
  | [], p, v => [(p, v)]
  | (q, w) :: rest, p, v => if q = p then (p, v) :: rest else (q, w) :: fsSet rest p v

/-- `os.path.dirname`: everything before the final path separator. -/
def dirname (p : String) : String :=
  String.intercalate "/" ((p.splitOn "/").dropLast)

/-- `os.makedirs(path, exist_ok=...)`: raises `FileExistsError` when the
directory exists and `exist_ok` is false, otherwise succeeds. -/
def makedirs (fs : FileSystem) (path : String) (exist_ok : Bool) : Except String FileSystem :=
  if path ∈ fs.dirs then
    if exist_ok then .ok fs else .error "FileExistsError"
  else .ok ⟨fs.files, path :: fs.dirs⟩

/-- `ensure_directory_exists_simple` (nq_downloader.py:26-28):
`os.makedirs(path, exist_ok=True)`. -/
def ensure_directory_exists_simple (fs : FileSystem) (path : String) : Except String FileSystem :=
  makedirs fs path true

/-- The bytes written by `save_data_simple`: each CSV line followed by a
newline. -/
def renderLines (lines : List String) : String :=
  String.join (lines.map (fun l => l ++ "\n"))

/-- `NQDataDownloader.save_data_simple` (nq_downloader.py:267-273):
ensure the parent directory exists, then write every line (followed by
`'\n'`) to the file opened with mode `'w'`. -/
def save_data_simple (fs : FileSystem) (csv_lines : List String) (output_path : String) :
    Except String FileSystem :=
  (ensure_directory_exists_simple fs (dirname output_path)).map
    (fun fs1 => ⟨fsSet fs1.files output_path (renderLines csv_lines), fs1.dirs⟩)

theorem chunkWindows_length (start endT : ℕ) (h : start ≤ endT) :
    (chunkWindows start endT).length = (endT - start) / 11520 + 1 := by
  induction start, endT using chunkWindows.induct with
  | case1 s e hle ih =>
      rw [chunkWindows]
      simp only [if_pos hle, List.length_cons]
      rcases le_or_lt (s + 10080) e with hm | hm
      · rw [min_eq_left hm] at ih ⊢
        by_cases hrec : s + 10080 + 1440 ≤ e
        · have := ih hrec
          omega
        · rw [chunkWindows, if_neg hrec]
          simp only [List.length_nil]
          omega
      · rw [min_eq_right (le_of_lt hm)] at ih ⊢
        rw [chunkWindows, if_neg (by omega)]
        simp only [List.length_nil]
        omega
  | case2 s e hle =>
      omega

theorem chunkWindows_mem (start endT : ℕ) :
    ∀ w ∈ chunkWindows start endT,
      start ≤ w.1 ∧ w.1 ≤ w.2 ∧ w.2 ≤ endT ∧ w.2 - w.1 ≤ 10080 := by
  induction start, endT using chunkWindows.induct with
  | case1 s e hle ih =>
      rw [chunkWindows]
      simp only [if_pos hle, List.mem_cons]
      rintro w (rfl | hw)
      · simp only []
        omega
      · have := ih w hw
        omega
  | case2 s e hle =>
      rw [chunkWindows, if_neg hle]
      intro w hw
      exact absurd hw (List.not_mem_nil w)

theorem chunkWindows_eq_nil (start endT : ℕ) (h : ¬ start ≤ endT) :
    chunkWindows start endT = [] := by
  rw [chunkWindows, if_neg h]

theorem chunkWindows_chain (start endT : ℕ) :
    List.Chain' (fun a b : ℕ × ℕ => b.1 = a.2 + 1440) (chunkWindows start endT) := by
  induction start, endT using chunkWindows.induct with
  | case1 s e hle ih =>
      rw [chunkWindows]
      simp only [if_pos hle]
      refine List.chain'_cons'.mpr ⟨?_, ih⟩
      intro w hw
      by_cases hrec : min (s + 10080) e + 1440 ≤ e
      · rw [chunkWindows, if_pos hrec] at hw
        simp only [List.head?_cons, Option.mem_def, Option.some.injEq] at hw
        subst hw
        rfl
      · rw [chunkWindows_eq_nil _ _ hrec] at hw
        simp at hw
  | case2 s e hle =>
      rw [chunkWindows_eq_nil _ _ hle]
      exact List.chain'_nil

theorem chunkWindows_pairwise (start endT : ℕ) :
    List.Pairwise (fun a b : ℕ × ℕ => a.2 < b.1) (chunkWindows start endT) := by
  induction start, endT using chunkWindows.induct with
  | case1 s e hle ih =>
      rw [chunkWindows]
      simp only [if_pos hle]
      refine List.pairwise_cons.mpr ⟨?_, ih⟩
      intro w hw
      have := (chunkWindows_mem _ _ w hw).1
      omega
  | case2 s e hle =>
      rw [chunkWindows_eq_nil _ _ hle]
      exact List.Pairwise.nil


theorem chunkWindows_cover (start endT : ℕ) :
    ∀ t, start ≤ t → t ≤ endT →
      ((∃ w ∈ chunkWindows start endT, w.1 ≤ t ∧ t ≤ w.2) ↔ (t - start) % 11520 ≤ 10080) := by
  induction start, endT using chunkWindows.induct with
  | case1 s e hle ih =>
      intro t ht1 ht2
      rw [chunkWindows]
      simp only [if_pos hle, List.mem_cons]
      rcases le_or_lt (s + 10080) e with hm | hm
      · rw [min_eq_left hm] at ih ⊢
        rcases le_or_lt t (s + 10080) with ht | ht
        · refine iff_of_true ⟨(s, s + 10080), Or.inl rfl, by omega⟩ (by omega)
        · by_cases hrec : s + 10080 + 1440 ≤ e
          · rcases le_or_lt (s + 10080 + 1440) t with htt | htt
            · constructor
              · rintro ⟨w, (rfl | hw), hwt⟩
                · omega
                · have := (ih t htt ht2).mp ⟨w, hw, hwt⟩
                  omega
              · intro hmod
                obtain ⟨w, hw, hwt⟩ := (ih t htt ht2).mpr (by omega)
                exact ⟨w, Or.inr hw, hwt⟩
            · refine iff_of_false ?_ (by omega)
              rintro ⟨w, (rfl | hw), hwt⟩
              · omega
              · have := (chunkWindows_mem _ _ w hw).1
                omega
          · rw [chunkWindows_eq_nil _ _ hrec]
            refine iff_of_false ?_ (by omega)
            rintro ⟨w, (rfl | hw), hwt⟩
            · omega
            · simp at hw
      · rw [min_eq_right (le_of_lt hm)]
        exact iff_of_true ⟨(s, e), Or.inl rfl, by omega⟩ (by omega)
  | case2 s e hle =>
      intro t ht1 ht2
      omega

theorem chunkWindows_head (start endT : ℕ) (h : start ≤ endT) :
    (chunkWindows start endT).head? = some (start, min (start + 10080) endT) := by
  rw [chunkWindows, if_pos h]
  rfl

theorem validate_iff_aux (b : BarDict) :
    validate_ohlcv_data_simple b = true ↔
      ∃ ts o h l c v, b.timestamp = some ts ∧ b.«open» = some o ∧ b.high = some h ∧
        b.low = some l ∧ b.close = some c ∧ b.volume = some v ∧
        l ≤ o ∧ o ≤ h ∧ l ≤ c ∧ c ≤ h ∧ 0 ≤ v := by
  obtain ⟨ts, o, h, l, c, v⟩ := b
  rcases ts with _ | t <;> rcases o with _ | o <;> rcases h with _ | h <;>
    rcases l with _ | l <;> rcases c with _ | c <;> rcases v with _ | v <;>
    simp [validate_ohlcv_data_simple]
  tauto

theorem validate_example_rejected : validate_ohlcv_data_simple ⟨none, some 10, some 9, some 8, some (19/2), some 100⟩ = false := by
  simp [validate_ohlcv_data_simple]

theorem foldl_append_filter (p : BarDict → Bool) (l : List BarDict) :
    ∀ acc : List BarDict,
      l.foldl (fun cleaned bar => if p bar then cleaned ++ [bar] else cleaned) acc =
        acc ++ l.filter p := by
  induction l with
  | nil => intro acc; simp
  | cons b rest ih =>
      intro acc
      by_cases hb : p b
      · simp [List.filter_cons, hb, ih]
      · simp [List.filter_cons, hb, ih]

theorem create_eq_filterMap (bars : List BarDict) (symbol resolution : String)
    (hall : ∀ b ∈ bars, hasAllFields b = true) :
    create_lean_csv_simple bars symbol resolution = .ok (bars.filterMap (lineOfDict resolution)) ∧
    (bars.filterMap (lineOfDict resolution)).length = bars.length := by
  induction bars with
  | nil => simp [create_lean_csv_simple]
  | cons b rest ih =>
      have hb := hall b (List.mem_cons_self b rest)
      have hrest := ih (fun x hx => hall x (List.mem_cons_of_mem b hx))
      obtain ⟨ts, o, h, l, c, v⟩ := b
      rcases ts with _ | t <;> rcases o with _ | o <;> rcases h with _ | h <;>
        rcases l with _ | l <;> rcases c with _ | c <;> rcases v with _ | v <;>
        simp [hasAllFields] at hb
      simp only [create_lean_csv_simple, List.filterMap_cons, lineOfDict, hrest.1, Except.map,
        List.length_cons, hrest.2]
      simp

theorem runSymbols_spec (f : String → Except String Unit) (symbols : List String) :
    (runSymbols f symbols).1 = symbols ∧
    (runSymbols f symbols).2 = symbols.filterMap
      (fun s => match f s with | .error e => some (s, e) | .ok _ => none) := by
  induction symbols with
  | nil => simp [runSymbols]
  | cons s rest ih =>
      cases hfs : f s <;>
        simp [runSymbols, hfs, List.filterMap_cons, ih.1, ih.2]

theorem fsGet_fsSet (l : List (String × String)) (p v : String) :
    fsGet (fsSet l p v) p = some v := by
  induction l with
  | nil => simp [fsGet, fsSet]
  | cons qw rest ih =>
      obtain ⟨q, w⟩ := qw
      by_cases hq : q = p
      · simp [fsGet, fsSet, hq]
      · simp [fsGet, fsSet, hq, ih]

theorem fsSet_fsSet (l : List (String × String)) (p v v' : String) :
    fsSet (fsSet l p v) p v' = fsSet l p v' := by
  induction l with
  | nil => simp [fsSet]
  | cons qw rest ih =>
      obtain ⟨q, w⟩ := qw
      by_cases hq : q = p
      · simp [fsSet, hq]
      · simp [fsSet, hq, ih]

theorem ensure_directory_spec (fs : FileSystem) (d : String) :
    ∃ fs', ensure_directory_exists_simple fs d = .ok fs' ∧ fs'.files = fs.files ∧
      d ∈ fs'.dirs ∧ ensure_directory_exists_simple fs' d = .ok fs' := by
  by_cases hd : d ∈ fs.dirs
  · exact ⟨fs, by simp [ensure_directory_exists_simple, makedirs, hd], rfl, hd,
      by simp [ensure_directory_exists_simple, makedirs, hd]⟩
  · refine ⟨⟨fs.files, d :: fs.dirs⟩, ?_, rfl, List.mem_cons_self _ _, ?_⟩
    · simp [ensure_directory_exists_simple, makedirs, hd]
    · simp [ensure_directory_exists_simple, makedirs]

/-- Claim C1 (as stated, refuted): the chunk loop of
`download_symbol_data` does not partition the window gaplessly, and a
400-day request (576000 minutes) yields 51 chunks, not ceil(400/7) = 58:
the minute 10100 lies inside a 20-day request (28800 minutes) but inside
no chunk. -/
theorem C1_counterexample :
    (chunkWindows 0 576000).length = 51 ∧ (chunkWindows 0 576000).length ≠ 58 ∧
    10100 ≤ 28800 ∧ ¬ (∃ w ∈ chunkWindows 0 28800, w.1 ≤ 10100 ∧ 10100 ≤ w.2) := by
  have hl : (chunkWindows 0 576000).length = 51 := by
    rw [chunkWindows_length 0 576000 (by omega)]
  refine ⟨hl, by omega, by omega, ?_⟩
  intro hcov
  have := (chunkWindows_cover 0 28800 10100 (by omega) (by omega)).mp hcov
  omega

/-- Claim C1, amended: for `start ≤ end` the chunk loop produces windows
that begin at `start`, each span at most 7 days (10080 minutes), stay
inside the requested range and are pairwise non-overlapping, but each
successive window starts exactly 1 day (1440 minutes) after the previous
window's end, so a minute `t` of the range is covered iff
`(t - start) % 11520 ≤ 10080`; the number of windows is
`(end - start) / 11520 + 1` (51 for a 400-day request, not 58). -/
theorem C1_chunk_windows_structure (start endT : ℕ) (h : start ≤ endT) :
    (chunkWindows start endT).head? = some (start, min (start + 10080) endT) ∧
    (∀ w ∈ chunkWindows start endT, start ≤ w.1 ∧ w.1 ≤ w.2 ∧ w.2 ≤ endT ∧ w.2 - w.1 ≤ 10080) ∧
    List.Chain' (fun a b : ℕ × ℕ => b.1 = a.2 + 1440) (chunkWindows start endT) ∧
    List.Pairwise (fun a b : ℕ × ℕ => a.2 < b.1) (chunkWindows start endT) ∧
    (chunkWindows start endT).length = (endT - start) / 11520 + 1 ∧
    (∀ t, start ≤ t → t ≤ endT →
      ((∃ w ∈ chunkWindows start endT, w.1 ≤ t ∧ t ≤ w.2) ↔ (t - start) % 11520 ≤ 10080)) :=
  ⟨chunkWindows_head start endT h, chunkWindows_mem start endT,
    chunkWindows_chain start endT, chunkWindows_pairwise start endT,
    chunkWindows_length start endT h, chunkWindows_cover start endT⟩

/-- Witness for `C1_chunk_windows_structure` at the 400-day request. -/
theorem C1_chunk_windows_structure_witness :
    (0:ℕ) ≤ 576000 ∧
    ((chunkWindows 0 576000).head? = some (0, min (0 + 10080) 576000) ∧
    (∀ w ∈ chunkWindows 0 576000, 0 ≤ w.1 ∧ w.1 ≤ w.2 ∧ w.2 ≤ 576000 ∧ w.2 - w.1 ≤ 10080) ∧
    List.Chain' (fun a b : ℕ × ℕ => b.1 = a.2 + 1440) (chunkWindows 0 576000) ∧
    List.Pairwise (fun a b : ℕ × ℕ => a.2 < b.1) (chunkWindows 0 576000) ∧
    (chunkWindows 0 576000).length = (576000 - 0) / 11520 + 1 ∧
    (∀ t, 0 ≤ t → t ≤ 576000 →
      ((∃ w ∈ chunkWindows 0 576000, w.1 ≤ t ∧ t ≤ w.2) ↔ (t - 0) % 11520 ≤ 10080))) :=
  ⟨by omega, C1_chunk_windows_structure 0 576000 (by omega)⟩

/-- Claim C2: encoding the single bar with timestamp 2024-01-15 09:31,
open 382.50, high 382.65, low 382.40, close 382.55, volume 1050000 at
minute resolution with multiplier 10000 yields exactly the row
`34260000,3825000,3826500,3824000,3825500,1050000`. -/
theorem C2_encode_example_row :
    create_lean_csv_simple
      [⟨some ⟨2024, 1, 15, 9, 31, 0⟩, some (38250/100), some (38265/100),
        some (38240/100), some (38255/100), some 1050000⟩] "QQQ" "minute" =
      .ok ["34260000,3825000,3826500,3824000,3825500,1050000"] := by
  have h1 : scaledPrice (38250/100 : ℚ) = 3825000 := by norm_num [scaledPrice, pyInt]
  have h2 : scaledPrice (38265/100 : ℚ) = 3826500 := by norm_num [scaledPrice, pyInt]
  have h3 : scaledPrice (38240/100 : ℚ) = 3824000 := by norm_num [scaledPrice, pyInt]
  have h4 : scaledPrice (38255/100 : ℚ) = 3825500 := by norm_num [scaledPrice, pyInt]
  simp only [create_lean_csv_simple, lineOfBar, h1, h2, h3, h4, Except.map,
    Except.ok.injEq, List.cons.injEq, and_true]
  decide

/-- Claim C3 (as stated, refuted): the encoder scales prices with Python
`int(price * 10000)`, which truncates; at price 2.00006 the stored value
is 20000 while the nearest integer to price times 10000 is 20001, and the
emitted row indeed carries 20000. -/
theorem C3_counterexample :
    scaledPrice (200006/100000 : ℚ) = 20000 ∧
    round ((200006/100000 : ℚ) * 10000) = 20001 ∧
    scaledPrice (200006/100000 : ℚ) ≠ round ((200006/100000 : ℚ) * 10000) ∧
    create_lean_csv_simple
      [⟨some ⟨2024, 1, 15, 9, 30, 0⟩, some (200006/100000), some (200006/100000),
        some (200006/100000), some (200006/100000), some 0⟩] "QQQ" "minute" =
      .ok ["34200000,20000,20000,20000,20000,0"] := by
  have hs : scaledPrice (200006/100000 : ℚ) = 20000 := by norm_num [scaledPrice, pyInt]
  have hr : round ((200006/100000 : ℚ) * 10000) = 20001 := by norm_num [round_eq]
  refine ⟨hs, hr, by omega, ?_⟩
  simp only [create_lean_csv_simple, lineOfBar, hs, Except.map,
    Except.ok.injEq, List.cons.injEq, and_true]
  decide

/-- Claim C3, amended: for every non-negative price, the encoder stores
`int(price * 10000)` = the floor of price times 10000; this agrees with
the nearest integer exactly when the fractional part of the scaled price
is below one half, and is one less than it otherwise. -/
theorem C3_truncation_encoding (p : ℚ) (hp : 0 ≤ p) :
    scaledPrice p = ⌊p * 10000⌋ ∧
    (Int.fract (p * 10000) < 1/2 → scaledPrice p = round (p * 10000)) ∧
    (1/2 ≤ Int.fract (p * 10000) → scaledPrice p = round (p * 10000) - 1) := by
  have h0 : (0:ℚ) ≤ p * 10000 := by positivity
  have hfloor : scaledPrice p = ⌊p * 10000⌋ := by
    unfold scaledPrice pyInt
    rw [if_pos h0]
  have hfr : p * 10000 - ↑⌊p * 10000⌋ = Int.fract (p * 10000) := Int.self_sub_floor _
  have hlt1 : Int.fract (p * 10000) < 1 := Int.fract_lt_one _
  have hle : (↑⌊p * 10000⌋ : ℚ) ≤ p * 10000 := Int.floor_le _
  refine ⟨hfloor, ?_, ?_⟩
  · intro hf
    rw [hfloor, round_eq]
    symm
    rw [Int.floor_eq_iff]
    constructor
    · linarith
    · linarith
  · intro hf
    rw [hfloor, round_eq]
    have hup : ⌊p * 10000 + 1/2⌋ = ⌊p * 10000⌋ + 1 := by
      rw [Int.floor_eq_iff]
      constructor
      · push_cast
        linarith
      · push_cast
        linarith
    rw [hup]
    ring

/-- Witness for `C3_truncation_encoding` at price 2.00006. -/
theorem C3_truncation_encoding_witness :
    (0:ℚ) ≤ 200006/100000 ∧
    (scaledPrice (200006/100000 : ℚ) = ⌊(200006/100000 : ℚ) * 10000⌋ ∧
    (Int.fract ((200006/100000 : ℚ) * 10000) < 1/2 →
      scaledPrice (200006/100000 : ℚ) = round ((200006/100000 : ℚ) * 10000)) ∧
    (1/2 ≤ Int.fract ((200006/100000 : ℚ) * 10000) →
      scaledPrice (200006/100000 : ℚ) = round ((200006/100000 : ℚ) * 10000) - 1)) :=
  ⟨by norm_num, C3_truncation_encoding (200006/100000 : ℚ) (by norm_num)⟩

/-- An Alpha Vantage response carrying both an `'Error Message'` and a
`'Note'` key. -/
def avRespBoth : AVResponse :=
  ⟨some "Invalid API call", some "API call frequency is 5 calls per minute", none⟩

/-- Claim C6 (as stated, refuted): a response whose JSON contains a
`'Note'` key but also an `'Error Message'` key returns the empty list
after sleeping 0 seconds, not 60: the error branch is tested first. -/
theorem C6_counterexample :
    avRespBoth.note.isSome = true ∧
    (get_alpha_vantage_data avRespBoth).1 = [] ∧
    (get_alpha_vantage_data avRespBoth).2 = 0 ∧
    (get_alpha_vantage_data avRespBoth).2 ≠ 60 :=
  ⟨rfl, rfl, rfl, by decide⟩

/-- Claim C6, amended: whenever the response carries a `'Note'` key and
no `'Error Message'` key, `get_alpha_vantage_data` sleeps 60 seconds and
returns the empty bar list instead of raising. -/
theorem C6_rate_limit_sleep (resp : AVResponse) (he : resp.errorMessage = none)
    (hn : resp.note.isSome = true) :
    get_alpha_vantage_data resp = ([], 60) := by
  obtain ⟨em, note, ts⟩ := resp
  cases em
  · cases note
    · simp at hn
    · rfl
  · simp at he

/-- Witness for `C6_rate_limit_sleep` at a concrete rate-limit response. -/
theorem C6_rate_limit_sleep_witness :
    (⟨none, some "rate limit", none⟩ : AVResponse).errorMessage = none ∧
    (⟨none, some "rate limit", none⟩ : AVResponse).note.isSome = true ∧
    get_alpha_vantage_data ⟨none, some "rate limit", none⟩ = ([], 60) :=
  ⟨rfl, rfl, C6_rate_limit_sleep ⟨none, some "rate limit", none⟩ rfl rfl⟩

/-- A per-symbol behaviour that raises on QQQ and succeeds elsewhere. -/
def failsQQQ : String → Except String Unit :=
  fun s => if s = "QQQ" then .error "HTTPError" else .ok ()

/-- Claim C7 (as stated, refuted): even on a run with one failed and one
succeeded symbol, `download_multiple_symbols` returns `None` — not a
RunReport value; the failure is recorded only in the log. -/
theorem C7_counterexample :
    (download_multiple_symbols failsQQQ ["QQQ", "TQQQ"]).retVal = none ∧
    (download_multiple_symbols failsQQQ ["QQQ", "TQQQ"]).errors = [("QQQ", "HTTPError")] ∧
    (download_multiple_symbols failsQQQ ["QQQ", "TQQQ"]).attempted = ["QQQ", "TQQQ"] := by
  refine ⟨rfl, ?_, ?_⟩ <;>
    simp [download_multiple_symbols, runSymbols, failsQQQ]

/-- Claim C7, amended: `download_multiple_symbols` always returns `None`;
the per-symbol failure reasons exist only as logged error messages, which
enumerate exactly the symbols whose processing raised. -/
theorem C7_returns_none (f : String → Except String Unit) (symbols : List String) :
    (download_multiple_symbols f symbols).retVal = none ∧
    (download_multiple_symbols f symbols).errors = symbols.filterMap
      (fun s => match f s with | .error e => some (s, e) | .ok _ => none) :=
  ⟨rfl, (runSymbols_spec f symbols).2⟩

/-- Claim C4: `validate_ohlcv_data_simple` returns true iff all six
required fields are present and low <= open <= high, low <= close <= high
and volume >= 0 hold; the bar with open 10, high 9, low 8, close 9.5,
volume 100 is rejected. -/
theorem C4_validate_characterization :
    (∀ b : BarDict, validate_ohlcv_data_simple b = true ↔
      ∃ ts o h l c v, b.timestamp = some ts ∧ b.«open» = some o ∧ b.high = some h ∧
        b.low = some l ∧ b.close = some c ∧ b.volume = some v ∧
        l ≤ o ∧ o ≤ h ∧ l ≤ c ∧ c ≤ h ∧ 0 ≤ v) ∧
    validate_ohlcv_data_simple ⟨none, some 10, some 9, some 8, some (19/2), some 100⟩ = false :=
  ⟨validate_iff_aux, validate_example_rejected⟩

/-- Claim C5: `clean_ohlcv_data_simple` is the order-preserving filter of
its input by `validate_ohlcv_data_simple`: a sublist of the input whose
members are exactly the accepted bars, unmodified; invalid bars are
dropped, never repaired. -/
theorem C5_clean_is_filter (data : List BarDict) :
    clean_ohlcv_data_simple data = data.filter (fun b => validate_ohlcv_data_simple b) ∧
    (clean_ohlcv_data_simple data).Sublist data ∧
    (∀ b ∈ clean_ohlcv_data_simple data, validate_ohlcv_data_simple b = true ∧ b ∈ data) ∧
    (∀ b ∈ data, validate_ohlcv_data_simple b = false → b ∉ clean_ohlcv_data_simple data) := by
  have hq : clean_ohlcv_data_simple data = data.filter (fun b => validate_ohlcv_data_simple b) := by
    have := foldl_append_filter (fun b => validate_ohlcv_data_simple b) data []
    simpa [clean_ohlcv_data_simple] using this
  refine ⟨hq, ?_, ?_, ?_⟩
  · rw [hq]
    exact List.filter_sublist data
  · rw [hq]
    intro b hb
    rw [List.mem_filter] at hb
    exact ⟨hb.2, hb.1⟩
  · rw [hq]
    intro b _ hbv hmem
    rw [List.mem_filter] at hmem
    rw [hmem.2] at hbv
    cases hbv

/-- Claim C8: writing the same CSV lines to the same path twice with
`save_data_simple` leaves the filesystem exactly as after one write; the
resulting file content is the rendered lines regardless of any previous
content at that path (overwrite, never append); and
`ensure_directory_exists_simple` can be invoked repeatedly on the same
directory without error. -/
theorem C8_write_idempotent (fs : FileSystem) (csv_lines : List String) (output_path d : String) :
    (save_data_simple fs csv_lines output_path).bind
        (fun fs1 => save_data_simple fs1 csv_lines output_path) =
      save_data_simple fs csv_lines output_path ∧
    (∃ fs1, save_data_simple fs csv_lines output_path = .ok fs1 ∧
      fsGet fs1.files output_path = some (renderLines csv_lines)) ∧
    (∃ fs2, ensure_directory_exists_simple fs d = .ok fs2 ∧
      ensure_directory_exists_simple fs2 d = .ok fs2) := by
  obtain ⟨fsd, hok, hfiles, hdir, hagain⟩ := ensure_directory_spec fs (dirname output_path)
  have hsave : save_data_simple fs csv_lines output_path =
      .ok ⟨fsSet fsd.files output_path (renderLines csv_lines), fsd.dirs⟩ := by
    rw [save_data_simple, hok]
    rfl
  obtain ⟨fse, hok2, _, _, hagain2⟩ := ensure_directory_spec fs d
  refine ⟨?_, ⟨_, hsave, fsGet_fsSet _ _ _⟩, ⟨fse, hok2, hagain2⟩⟩
  rw [hsave]
  show save_data_simple ⟨fsSet fsd.files output_path (renderLines csv_lines), fsd.dirs⟩
      csv_lines output_path = _
  rw [save_data_simple, ensure_directory_exists_simple, makedirs]
  simp only [hdir, if_pos, if_true]
  simp [Except.map, fsSet_fsSet]

/-- Claim C9: `download_multiple_symbols` attempts every symbol of the
input list in order no matter which symbols raise, and an error is
recorded for a symbol exactly when that symbol was in the list and its
processing raised. -/
theorem C9_symbol_isolation (f : String → Except String Unit) (symbols : List String) :
    (download_multiple_symbols f symbols).attempted = symbols ∧
    (∀ s e, (s, e) ∈ (download_multiple_symbols f symbols).errors ↔
      (s ∈ symbols ∧ f s = .error e)) := by
  refine ⟨(runSymbols_spec f symbols).1, ?_⟩
  intro s e
  show (s, e) ∈ (runSymbols f symbols).2 ↔ _
  rw [(runSymbols_spec f symbols).2, List.mem_filterMap]
  constructor
  · rintro ⟨a, ha, hg⟩
    cases hfa : f a with
    | ok u =>
        rw [hfa] at hg
        simp at hg
    | error e' =>
        rw [hfa] at hg
        simp only [Option.some.injEq, Prod.mk.injEq] at hg
        obtain ⟨rfl, rfl⟩ := hg
        exact ⟨ha, hfa⟩
  · rintro ⟨hs, hfs⟩
    refine ⟨s, hs, ?_⟩
    rw [hfs]

/-- A bar violating the OHLCV invariant (high 8 < low 10) yet carrying
all six fields. -/
def invalidEncodedBar : BarDict :=
  ⟨some ⟨2024, 1, 15, 9, 30, 0⟩, some 9, some 8, some 10, some 9, some 5⟩

/-- Claim C10: on bars that carry all six fields,
`create_lean_csv_simple` emits exactly one CSV line per input bar, in
input order, and performs no validity check of its own: a bar with
high < low is still encoded and emitted. -/
theorem C10_encoder_one_line_per_bar (bars : List BarDict) (symbol resolution : String)
    (hall : ∀ b ∈ bars, hasAllFields b = true) :
    create_lean_csv_simple bars symbol resolution = .ok (bars.filterMap (lineOfDict resolution)) ∧
    (bars.filterMap (lineOfDict resolution)).length = bars.length ∧
    validate_ohlcv_data_simple invalidEncodedBar = false ∧
    hasAllFields invalidEncodedBar = true ∧
    lineOfDict "minute" invalidEncodedBar =
      some (lineOfBar "minute" ⟨2024, 1, 15, 9, 30, 0⟩ 9 8 10 9 5) := by
  refine ⟨(create_eq_filterMap bars symbol resolution hall).1,
    (create_eq_filterMap bars symbol resolution hall).2, ?_, rfl, rfl⟩
  norm_num [validate_ohlcv_data_simple, invalidEncodedBar]

/-- Witness for `C10_encoder_one_line_per_bar` on the invalid bar. -/
theorem C10_encoder_one_line_per_bar_witness :
    (∀ b ∈ [invalidEncodedBar], hasAllFields b = true) ∧
    (create_lean_csv_simple [invalidEncodedBar] "QQQ" "minute" =
        .ok ([invalidEncodedBar].filterMap (lineOfDict "minute")) ∧
      ([invalidEncodedBar].filterMap (lineOfDict "minute")).length = [invalidEncodedBar].length ∧
      validate_ohlcv_data_simple invalidEncodedBar = false ∧
      hasAllFields invalidEncodedBar = true ∧
      lineOfDict "minute" invalidEncodedBar =
        some (lineOfBar "minute" ⟨2024, 1, 15, 9, 30, 0⟩ 9 8 10 9 5)) :=
  ⟨by decide, C10_encoder_one_line_per_bar [invalidEncodedBar] "QQQ" "minute" (by decide)⟩

end AlgoForge
